import Mathlib

/-!
Verification of the Spatial Behavior Analytics Engine of the
WildlifeImmobilizationApp repository against its natural-language
specification.  The Python sources (src/app.py, src/components/analysis.py)
are shallowly embedded below: machine floats are modelled by exact
rationals, pandas timestamps by rational seconds since the epoch, and
Python dicts by association lists with replace-on-rewrite semantics.
External numeric library primitives that are irreducible to rational
arithmetic (the haversine/euclidean distance kernels, the latitude
cosine correction, the geometric union) are taken as explicit function
parameters of the embeddings; everything else is executable.
-/

namespace Wildlife

/-- One GPS fix: timestamp in rational seconds since the epoch, latitude and
longitude in decimal degrees (columns `timestamp`, `location_lat`,
`location_long` of the app's dataframes). -/
structure Fix where
  t : ℚ
  lat : ℚ
  lon : ℚ
deriving DecidableEq, Repr

/-- A planar point in (longitude, latitude) order, as shapely stores it. -/
abbrev Point2 := ℚ × ℚ

/-- Keys of the per-individual home-range result dict.  In Python the keys
are the strings "area_100", f"area_\x7bpercent\x7d", f"hull_\x7bpercent\x7d",
f"contour_\x7bpercent\x7d" and "error"; the string collision between
"area_100" and f"area_\x7bpercent\x7d" at percent = 100 is preserved because
`areaK 100` denotes both. -/
inductive HRKey where
  | areaK (p : ℕ)
  | hullK (p : ℕ)
  | contourK (p : ℕ)
  | errK
deriving DecidableEq, Repr

/-- Shapely geometry as produced by `MultiPoint(...).convex_hull`: a point
for one distinct input point, a line string for a degenerate (collinear)
set, otherwise a polygon given by its closed exterior ring. -/
inductive ShapelyGeom where
  | point (p : Point2)
  | lineString (ps : List Point2)
  | polygon (ring : List Point2)
  | multiPolygon (rings : List (List Point2))
deriving DecidableEq, Repr

/-- The portable boundary format produced by `hull_to_geojson` /
`contour_to_geojson` (src/app.py lines 1969-1997). -/
inductive GeoJson where
  | polygonJson (rings : List (List Point2))
  | multiPolygonJson (polys : List (List (List Point2)))
deriving DecidableEq, Repr

/-- Values stored in a home-range result dict. -/
inductive HRVal where
  | num (q : ℚ)
  | geo (g : Option GeoJson)
  | err (s : String)
deriving DecidableEq, Repr

/-- Python dict assignment `d[k] = v`: replace the value in place when the
key is present (keys are unique in dicts built this way), append
otherwise; insertion order is preserved as in Python dicts. -/
def dictInsert {V : Type} : List (HRKey × V) → HRKey → V → List (HRKey × V)
  | [], k, v => [(k, v)]
  | kv :: rest, k, v =>
      if kv.1 = k then (k, v) :: rest else kv :: dictInsert rest k v

/-- Python dict lookup `d.get(k)`. -/
def dictLookup {V : Type} (d : List (HRKey × V)) (k : HRKey) : Option V :=
  (d.find? (fun kv => decide (kv.1 = k))).map (·.2)

/-- Number of entries of a dict carrying the given key (1 or 0 for dicts
built by `dictInsert`). -/
def dictCount {V : Type} (d : List (HRKey × V)) (k : HRKey) : ℕ :=
  (d.filter (fun kv => decide (kv.1 = k))).length

/-- Cross product of vectors `oa` and `ob`; positive for a left turn. -/
def cross2 (o a b : Point2) : ℚ :=
  (a.1 - o.1) * (b.2 - o.2) - (a.2 - o.2) * (b.1 - o.1)

/-- Lexicographic order on planar points, used to sort input to the
convex-hull construction. -/
def ptLE (p q : Point2) : Prop :=
  p.1 < q.1 ∨ (p.1 = q.1 ∧ p.2 ≤ q.2)

instance : DecidableRel ptLE := fun p q => by
  unfold ptLE; infer_instance

/-- Pop points that make a non-left turn with the incoming point, the inner
while-loop of Andrew's monotone chain. -/
def popTurns (p : Point2) : List Point2 → List Point2
  | a :: b :: rest =>
      if cross2 b a p ≤ 0 then popTurns p (b :: rest) else a :: b :: rest
  | l => l

/-- One half (lower or upper) of the monotone-chain hull, returned in
reverse order of construction. -/
def chainHalf (pts : List Point2) : List Point2 :=
  pts.foldl (fun acc p => p :: popTurns p acc) []

/-- Whether all points of the list lie on the line through `a` and `b`. -/
def allCollinear (a b : Point2) (pts : List Point2) : Prop :=
  ∀ r ∈ pts, cross2 a b r = 0

instance (a b : Point2) (pts : List Point2) : Decidable (allCollinear a b pts) := by
  unfold allCollinear; infer_instance

/-- Shapely's `MultiPoint(points).convex_hull`: a point for a single
distinct input, a line string joining the extreme points for a collinear
set, and otherwise the convex polygon with a closed exterior ring
(first vertex repeated last). -/
def convex_hull (pts : List Point2) : ShapelyGeom :=
  let ps := ((List.insertionSort ptLE pts).dedup : List Point2)
  match ps with
  | [] => .point (0, 0)
  | [p] => .point p
  | a :: b :: rest =>
      if allCollinear a b (b :: rest) then
        .lineString [a, (b :: rest).getLast (by simp)]
      else
        let lower := (chainHalf (a :: b :: rest)).reverse
        let upper := (chainHalf (a :: b :: rest).reverse).reverse
        let ring := lower.dropLast ++ upper.dropLast
        .polygon (ring ++ ring.take 1)

/-- Twice the signed shoelace area of a closed ring. -/
def shoelace2 (ring : List Point2) : ℚ :=
  ((ring.zip ring.tail).map (fun ab => ab.1.1 * ab.2.2 - ab.2.1 * ab.1.2)).sum

/-- Shapely's `geometry.area`: the unsigned planar area of a polygon and 0
for points and line strings. -/
def geomArea : ShapelyGeom → ℚ
  | .polygon ring => |shoelace2 ring| / 2
  | .multiPolygon rings => (rings.map (fun r => |shoelace2 r| / 2)).sum
  | _ => 0

/-- Embeds `calculate_area_km2` (src/app.py lines 1959-1966):
`area_degrees * 111.32**2 * cos(radians(mean_latitude))`.  The
transcendental factor `np.cos(np.radians(·))` is the parameter
`latCorr`. -/
def calculate_area_km2 (latCorr : ℚ → ℚ) (g : ShapelyGeom) (meanLat : ℚ) : ℚ :=
  geomArea g * (2783 / 25) ^ 2 * latCorr meanLat

/-- Embeds `hull_to_geojson` (src/app.py lines 1969-1976): a Polygon maps to
its exterior ring, every other geometry type to `None`. -/
def hull_to_geojson : ShapelyGeom → Option GeoJson
  | .polygon ring => some (.polygonJson [ring])
  | _ => none

/-- Mean of a rational list (`Series.mean()`); division by zero yields 0. -/
def mean_q (l : List ℚ) : ℚ := l.sum / l.length

/-- Sample size of the MCP loop (src/app.py line 1621):
`int(n_points * (percent / 100))`, i.e. the exact product truncated. -/
def mcp_sample_size (n p : ℕ) : ℕ :=
  (Int.floor ((n : ℚ) * ((p : ℚ) / 100))).toNat

/-- One iteration of the per-level loop of `calculate_single_mcp`
(src/app.py lines 1615-1633).  `latCorr` stands for the cosine latitude
correction inside `calculate_area_km2` and `choice n m` for
`np.random.choice(range(n), m, replace=False)` — the unseeded random
source made an explicit parameter. -/
def calculate_single_mcp_step (latCorr : ℚ → ℚ) (choice : ℕ → ℕ → List ℕ)
    (pts : List Point2) (res : List (HRKey × HRVal)) (percent : ℕ) :
    List (HRKey × HRVal) :=
  if percent = 100 then res
  else
    let n := pts.length
    let sample_size := mcp_sample_size n percent
    if 3 ≤ sample_size then
      let sampled := (choice n sample_size).filterMap pts.get?
      let shull := convex_hull sampled
      let area := calculate_area_km2 latCorr shull (mean_q (pts.map (·.2)))
      dictInsert (dictInsert res (.areaK percent) (.num area))
        (.hullK percent) (.geo (hull_to_geojson shull))
    else res

/-- Embeds `calculate_single_mcp` (src/app.py lines 1596-1635): the full
100% hull of all points first, then the per-level loop. -/
def calculate_single_mcp (latCorr : ℚ → ℚ) (choice : ℕ → ℕ → List ℕ)
    (pts : List Point2) (percent_levels : List ℕ) : List (HRKey × HRVal) :=
  let hull := convex_hull pts
  let meanLat := mean_q (pts.map (·.2))
  let area_100 := calculate_area_km2 latCorr hull meanLat
  let base := dictInsert (dictInsert [] (.areaK 100) (.num area_100))
      (.hullK 100) (.geo (hull_to_geojson hull))
  percent_levels.foldl (calculate_single_mcp_step latCorr choice pts) base

/-- Index comparison used to embed `np.argsort` over a row that may contain
`np.inf` (modelled by `⊤` of `WithTop ℚ`); ties are broken by index, the
behaviour of a stable argsort. -/
def idxLE (l : List (WithTop ℚ)) (i j : ℕ) : Prop :=
  l.getD i ⊤ < l.getD j ⊤ ∨ (l.getD i ⊤ = l.getD j ⊤ ∧ i ≤ j)

instance (l : List (WithTop ℚ)) : DecidableRel (idxLE l) := fun i j => by
  unfold idxLE; infer_instance

/-- Embeds `np.argsort` of a vector with possible infinities: the indices
`0, …, n-1` sorted by their value in the vector. -/
def argsortIdx (l : List (WithTop ℚ)) : List ℕ :=
  List.insertionSort (idxLE l) (List.range l.length)

/-- Index comparison for `np.argsort` over a plain rational vector. -/
def idxLEQ (l : List ℚ) (i j : ℕ) : Prop :=
  l.getD i 0 < l.getD j 0 ∨ (l.getD i 0 = l.getD j 0 ∧ i ≤ j)

instance (l : List ℚ) : DecidableRel (idxLEQ l) := fun i j => by
  unfold idxLEQ; infer_instance

/-- Embeds `np.argsort` of a rational vector. -/
def argsortQ (l : List ℚ) : List ℕ :=
  List.insertionSort (idxLEQ l) (List.range l.length)

/-- Largest pairwise absolute time difference, `time_matrix.max()` of
`calculate_single_locoht`. -/
def locoht_time_max (times : List ℚ) : ℚ :=
  ((times.map (fun a => times.map (fun b => |a - b|))).flatten).foldl max 0

/-- Number of nearest neighbours `k = min(15, n_points - 1)` of
`calculate_single_locoht` (src/app.py line 1905). -/
def locoht_k (n : ℕ) : ℕ := min 15 (n - 1)

/-- Row `i` of the combined space-time distance matrix of
`calculate_single_locoht` (src/app.py lines 1886-1902): euclidean spatial
distance (the parameter `sdist`) plus `0.5` times the time distance
normalised by its maximum, with the diagonal set to infinity. -/
def locoht_row (sdist : Point2 → Point2 → ℚ) (coords : List Point2)
    (times : List ℚ) (i : ℕ) : List (WithTop ℚ) :=
  let tmax := locoht_time_max times
  (List.range coords.length).map (fun j =>
    if j = i then ⊤
    else
      let d := sdist (coords.getD i (0, 0)) (coords.getD j (0, 0))
      let tm := |times.getD i 0 - times.getD j 0|
      let tn := if 0 < tmax then tm / tmax else tm
      ((d + (1 / 2) * tn : ℚ) : WithTop ℚ))

/-- Embeds `np.argsort(combined_matrix[i])[:k+1]` (src/app.py line 1911):
the slice keeps `k + 1` indices, the `+1` written to "include self". -/
def neighbors_idx (row : List (WithTop ℚ)) (k : ℕ) : List ℕ :=
  (argsortIdx row).take (k + 1)

/-- Whether a convex hull is a genuine polygon; `scipy.spatial.ConvexHull`
raises `QhullError` on inputs whose hull is degenerate. -/
def hullIsPolygon : ShapelyGeom → Bool
  | .polygon _ => true
  | _ => false

/-- Embeds `contour_to_geojson` (src/app.py lines 1979-1997): polygons and
multipolygons map to their ring lists, anything else to `None`. -/
def contour_to_geojson : ShapelyGeom → Option GeoJson
  | .polygon ring => some (.polygonJson [ring])
  | .multiPolygon rings => some (.multiPolygonJson (rings.map (fun r => [r])))
  | _ => none

/-- Hull accumulation of `calculate_single_locoht` (src/app.py lines
1936-1944): walk the area-sorted hulls smallest first, include each, and
stop as soon as the running area sum reaches the target. -/
def accum_hulls : List (ShapelyGeom × ℚ) → ℚ → ℚ → List ShapelyGeom
  | [], _, _ => []
  | (h, a) :: rest, cur, target =>
      if target ≤ cur + a then [h] else h :: accum_hulls rest (cur + a) target

/-- Embeds `calculate_single_locoht` (src/app.py lines 1872-1956).  `sdist`
stands for the euclidean point distance of `scipy.spatial.distance.cdist`
and `union` for `shapely.ops.unary_union`; a degenerate local hull makes
`scipy.spatial.ConvexHull` raise, which the surrounding handler reports as
the error entry. -/
def calculate_single_locoht (sdist : Point2 → Point2 → ℚ) (latCorr : ℚ → ℚ)
    (union : List ShapelyGeom → ShapelyGeom) (fixes : List Fix)
    (percent_levels : List ℕ) : List (HRKey × HRVal) :=
  let coords := fixes.map (fun f => (f.lon, f.lat))
  let n := coords.length
  if n < 5 then [(.errK, .err "Not enough points for T-LoCoH analysis")]
  else
    let times := fixes.map (·.t)
    let k := locoht_k n
    let meanLat := mean_q (fixes.map (·.lat))
    let nbc := fun i =>
      (neighbors_idx (locoht_row sdist coords times i) k).filterMap coords.get?
    if (List.range n).any
        (fun i => 3 ≤ (nbc i).length && !hullIsPolygon (convex_hull (nbc i))) then
      [(.errK, .err "QhullError")]
    else
      let hulls := (List.range n).filterMap (fun i =>
        if 3 ≤ (nbc i).length then some (convex_hull (nbc i)) else none)
      let hull_areas := hulls.map (fun h => calculate_area_km2 latCorr h meanLat)
      let sorted_pairs := (argsortQ hull_areas).filterMap
        (fun i => (hulls.get? i).bind (fun h => (hull_areas.get? i).map (h, ·)))
      let total_area := hull_areas.sum
      percent_levels.foldl (fun res (percent : ℕ) =>
        let target := total_area * ((percent : ℚ) / 100)
        let included := accum_hulls sorted_pairs 0 target
        if included.isEmpty then res
        else
          let u := union included
          dictInsert
            (dictInsert res (.areaK percent)
              (.num (calculate_area_km2 latCorr u meanLat)))
            (.contourK percent) (.geo (contour_to_geojson u))) []

/-- Descending `np.sort(·)[::-1]` of a rational vector. -/
def np_sort_desc (l : List ℚ) : List ℚ :=
  List.insertionSort (fun a b : ℚ => b ≤ a) l

/-- Embeds `np.cumsum`. -/
def np_cumsum (l : List ℚ) : List ℚ := (l.scanl (· + ·) 0).tail

/-- Embeds `np.argmin`: the first index attaining the minimum (0 on the
empty vector, where numpy raises instead). -/
def np_argmin : List ℚ → ℕ
  | [] => 0
  | x :: xs =>
      match xs with
      | [] => 0
      | _ :: _ =>
          let j := np_argmin xs
          if x ≤ xs.getD j 0 then 0 else j + 1

/-- Embeds `np.searchsorted(l, v)` with its default left side, on the
sorted vectors the code applies it to: the first index whose entry is at
least `v` (the length when there is none). -/
def np_searchsorted_left (l : List ℚ) (v : ℚ) : ℕ :=
  l.findIdx (fun x => decide (v ≤ x))

/-- Embeds the contour-level selection of `calculate_single_kde`
(src/app.py lines 1688-1702): sort the flattened grid densities
descending, cumulate, normalise by the total, and pick the density at the
index whose normalised cumulative mass is nearest to `percent / 100`. -/
def calculate_single_kde_level (kde_flat : List ℚ) (percent : ℕ) : ℚ :=
  let kde_sorted := np_sort_desc kde_flat
  let cumsum := np_cumsum kde_sorted
  let cumsum_n := cumsum.map (· / cumsum.getLastD 0)
  let idx := np_argmin (cumsum_n.map (fun c => |c - (percent : ℚ) / 100|))
  kde_sorted.getD idx 0

/-- Embeds the threshold selection of `calculate_home_range_kde`
(src/components/analysis.py lines 341-346): same cumulative mass, but the
index comes from `np.searchsorted`. -/
def calculate_home_range_kde_threshold (z_flat : List ℚ) (percentage : ℕ) : ℚ :=
  let z_sorted := np_sort_desc z_flat
  let cumsum := np_cumsum z_sorted
  let cumsum_n := cumsum.map (· / cumsum.getLastD 0)
  z_sorted.getD (np_searchsorted_left cumsum_n ((percentage : ℚ) / 100)) 0

/-- Modelled from the spec's words for claim C3: "find the density
threshold whose super-level set's probability mass (density values sorted
descending, cumulatively summed and normalized) first reaches that
fraction". -/
def spec_contour_threshold (densities : List ℚ) (percent : ℕ) : ℚ :=
  let s := np_sort_desc densities
  let c := np_cumsum s
  let cn := c.map (· / c.getLastD 0)
  s.getD (cn.findIdx (fun v => decide ((percent : ℚ) / 100 ≤ v))) 0

/-- The `time_diff` column of `calculate_single_activity` (src/app.py line
2096): minutes since the previous fix, `NaN` (modelled `none`) in the first
row. -/
def activity_time_diff (df : List Fix) : List (Option ℚ) :=
  match df with
  | [] => []
  | _ :: _ =>
      none :: (df.zip df.tail).map (fun ab => some ((ab.2.t - ab.1.t) / 60))

/-- The `distance` column of `calculate_single_activity` (src/app.py lines
2099-2106): row `i` holds the haversine distance from fix `i` to fix
`i + 1`; the last row keeps its `NaN` initialisation.  `hav` stands for
`haversine_distance` (src/app.py lines 2137-2148, in km). -/
def activity_distance (hav : ℚ → ℚ → ℚ → ℚ → ℚ) (df : List Fix) :
    List (Option ℚ) :=
  match df with
  | [] => []
  | _ :: _ =>
      (df.zip df.tail).map
        (fun ab => some (hav ab.1.lat ab.1.lon ab.2.lat ab.2.lon)) ++ [none]

/-- The `is_active` column of `calculate_single_activity` (src/app.py line
2115): `(distance > activity_threshold) & (time_diff <= time_window)`,
with pandas `NaN` comparisons evaluating to false. -/
def calculate_single_activity (hav : ℚ → ℚ → ℚ → ℚ → ℚ) (df : List Fix)
    (activity_threshold time_window : ℚ) : List Bool :=
  List.zipWith
    (fun d td =>
      (match d with
       | some x => decide (activity_threshold < x)
       | none => false) &&
      (match td with
       | some x => decide (x ≤ time_window)
       | none => false))
    (activity_distance hav df) (activity_time_diff df)

/-- Modelled from the spec's words for claim C5: `is_active` holds exactly
when the step distance to the PREVIOUS fix exceeds the threshold and the
time delta since the previous fix is at most the window. -/
def spec_is_active (hav : ℚ → ℚ → ℚ → ℚ → ℚ) (df : List Fix)
    (activity_threshold time_window : ℚ) : List Bool :=
  let prev_dist : List (Option ℚ) :=
    match df with
    | [] => []
    | _ :: _ =>
        none :: (df.zip df.tail).map
          (fun ab => some (hav ab.1.lat ab.1.lon ab.2.lat ab.2.lon))
  List.zipWith
    (fun d td =>
      (match d with
       | some x => decide (activity_threshold < x)
       | none => false) &&
      (match td with
       | some x => decide (x ≤ time_window)
       | none => false))
    prev_dist (activity_time_diff df)

/-- Timestamp order on fixes, the sort key of `df.sort_values('timestamp')`. -/
def fixLE (a b : Fix) : Prop := a.t ≤ b.t

instance : DecidableRel fixLE := fun a b => by unfold fixLE; infer_instance

instance : IsTotal Fix fixLE := ⟨fun a b => le_total a.t b.t⟩

instance : IsTrans Fix fixLE := ⟨fun _ _ _ h h2 => le_trans h h2⟩

/-- Embeds `calculate_distances` (src/components/analysis.py lines 50-79):
a frame with fewer than two rows is returned unchanged and without the
`distance_to_prev` column (`none`); otherwise the frame is sorted by
timestamp and annotated with per-row distances whose first entry is 0.
`hav` stands for `haversine_distance` (src/components/analysis.py lines
23-47, in meters). -/
def calculate_distances (hav : ℚ → ℚ → ℚ → ℚ → ℚ) (df : List Fix) :
    List Fix × Option (List ℚ) :=
  if df.length < 2 then (df, none)
  else
    let sorted := List.insertionSort fixLE df
    let distances := 0 ::
      (sorted.zip sorted.tail).map (fun ab => hav ab.1.lat ab.1.lon ab.2.lat ab.2.lon)
    (sorted, some distances)

/-- One reported outage of `calculate_quality_metrics`: start and end as
raw timestamps (seconds), duration in minutes. -/
structure QMOutage where
  start_time : ℚ
  end_time : ℚ
  duration : ℚ
deriving DecidableEq, Repr

/-- The `summary` block of `calculate_quality_metrics`. -/
structure QMSummary where
  start_date : ℚ
  end_date : ℚ
  total_points : ℕ
  expected_points : ℤ
  fix_success_rate : ℚ
  total_outages : ℕ
  total_outage_time : ℚ
  avg_outage_duration : ℚ
  max_outage_duration : ℚ
deriving DecidableEq, Repr

/-- The `temporal_patterns` block: a weekday histogram when the track spans
at least 7 days and an hour histogram when it spans at least 30. -/
structure TemporalPatterns where
  weekly : Option (List (String × ℕ))
  hourly : Option (List (ℕ × ℕ))
deriving DecidableEq, Repr

/-- The full return value of `calculate_quality_metrics`. -/
structure QualityMetrics where
  summary : QMSummary
  daily_completeness : List (ℤ × ℚ)
  outages : List QMOutage
  temporal_patterns : TemporalPatterns
deriving DecidableEq, Repr

/-- Calendar day of a timestamp in rational epoch seconds (`dt.date`). -/
def day_index (t : ℚ) : ℤ := Int.floor (t / 86400)

/-- Hour of day 0-23 of a timestamp (`dt.hour`). -/
def hour_of_day (t : ℚ) : ℕ := ((Int.floor (t / 3600)).emod 24).toNat

/-- Weekday names in the `day_order` of src/app.py line 2736. -/
def day_names : List String :=
  ["Monday", "Tuesday", "Wednesday", "Thursday", "Friday", "Saturday", "Sunday"]

/-- Weekday name of a timestamp (`dt.day_name()`); the epoch day 0 was a
Thursday. -/
def day_name (t : ℚ) : String :=
  day_names.getD ((day_index t + 3).emod 7).toNat ""

/-- Embeds `calculate_quality_metrics` (src/app.py lines 2676-2761) for a
validated expected sampling rate `E` in minutes.  `int(...)` truncation is
written as the floor, which agrees with it on the non-negative spans the
code produces. -/
def calculate_quality_metrics (df : List Fix) (E : ℚ) : QualityMetrics :=
  let sorted := List.insertionSort fixLE df
  let ts := sorted.map (·.t)
  let start_date := ts.headD 0
  let end_date := ts.getLastD 0
  let date_range := (end_date - start_date) / 60
  let expected_fixes : ℤ := Int.floor (date_range / E)
  let actual_fixes := df.length
  let rate : ℚ :=
    if 0 < expected_fixes then
      min 100 ((actual_fixes : ℚ) / (expected_fixes : ℚ) * 100)
    else 0
  let pairs := ts.zip ts.tail
  let outage_threshold := E * 2
  let outages : List QMOutage := pairs.filterMap (fun ab =>
    let gap := (ab.2 - ab.1) / 60
    if outage_threshold < gap then some ⟨ab.1, ab.2, gap⟩ else none)
  let outGaps := outages.map (·.duration)
  let dates := (ts.map day_index).dedup
  let daily_expected := 24 * 60 / E
  let daily := dates.map (fun d =>
    let cnt := (ts.filter (fun t => decide (day_index t = d))).length
    (d, min ((cnt : ℚ) / daily_expected * 100) 100))
  let spanDays : ℤ := Int.floor ((end_date - start_date) / 86400)
  let weekly :=
    if 7 ≤ spanDays then
      some (day_names.map (fun nm =>
        (nm, (ts.filter (fun t => decide (day_name t = nm))).length)))
    else none
  let hourly :=
    if 30 ≤ spanDays then
      some ((List.insertionSort (· ≤ ·) (ts.map hour_of_day).dedup).map
        (fun h => (h, (ts.filter (fun t => decide (hour_of_day t = h))).length)))
    else none
  { summary :=
      { start_date := start_date
        end_date := end_date
        total_points := actual_fixes
        expected_points := expected_fixes
        fix_success_rate := rate
        total_outages := outages.length
        total_outage_time := if outages.isEmpty then 0 else outGaps.sum
        avg_outage_duration := if outages.isEmpty then 0 else mean_q outGaps
        max_outage_duration := if outages.isEmpty then 0 else outGaps.foldl max 0 }
    daily_completeness := daily
    outages := outages
    temporal_patterns := { weekly := weekly, hourly := hourly } }

/-- One entry of the finer per-individual gap report of
`calculate_fix_success`: start and end as raw timestamps (seconds),
duration in hours. -/
structure GapEntry where
  start_time : ℚ
  end_time : ℚ
  duration_hours : ℚ
deriving DecidableEq, Repr

/-- The per-individual result of `calculate_fix_success`. -/
structure FixSuccessResult where
  fix_success_rate : ℚ
  expected_fixes : ℚ
  actual_fixes : ℕ
  missing_fixes : ℚ
  gaps : List GapEntry
  total_gap_hours : ℚ
deriving DecidableEq, Repr

/-- Embeds the per-individual body of `calculate_fix_success`
(src/components/analysis.py lines 524-607) for a provided expected
frequency `E` in minutes.  A group with fewer than two rows is skipped
(`none`).  Note the `dropna` removes the first row before `start_time`
and `actual_fixes` are taken, so the elapsed window starts at the second
timestamp and the first fix is not counted. -/
def calculate_fix_success (E : ℚ) (df : List Fix) : Option FixSuccessResult :=
  if df.length < 2 then none
  else
    let sorted := List.insertionSort fixLE df
    let ts := sorted.map (·.t)
    let tail_ts := ts.tail
    let pairs := ts.zip ts.tail
    let start_time := tail_ts.headD 0
    let end_time := tail_ts.getLastD 0
    let total_minutes := (end_time - start_time) / 60
    let expected := total_minutes / E
    let actual := tail_ts.length
    let rate : ℚ :=
      if 0 < expected then min ((actual : ℚ) / expected * 100) 100 else 0
    let gap_threshold := E * 3
    let gaps : List GapEntry := pairs.filterMap (fun ab =>
      let gapMin := (ab.2 - ab.1) / 60
      if gap_threshold < gapMin then
        some ⟨ab.2 - gapMin * 60, ab.2, gapMin / 60⟩
      else none)
    some { fix_success_rate := rate
           expected_fixes := expected
           actual_fixes := actual
           missing_fixes :=
             if (actual : ℚ) < expected then expected - (actual : ℚ) else 0
           gaps := gaps
           total_gap_hours := (gaps.map (·.duration_hours)).sum }

/-- Modelled from the spec's words for claim C7:
`expected_fixes = elapsed_minutes / expected_interval` exactly (no
truncation, elapsed from first to last fix), `fix_success_rate =
min(100, actual/expected·100)`, and 0 when `expected_fixes ≤ 0`. -/
def spec_fix_success_rate (df : List Fix) (E : ℚ) : ℚ :=
  let ts := df.map (·.t)
  let elapsed := (ts.foldl max (ts.headD 0) - ts.foldl min (ts.headD 0)) / 60
  let expected := elapsed / E
  if 0 < expected then min 100 ((df.length : ℚ) / expected * 100) else 0

/-- Concrete latitude-correction instance (cosine factor 1, the equator)
used to instantiate the embeddings at concrete inputs. -/
def unitCorr : ℚ → ℚ := fun _ => 1

/-- Concrete sampler instance: a deterministic admissible draw without
replacement, taking the first `m` indices. -/
def takeChoice : ℕ → ℕ → List ℕ := fun n m => (List.range n).take m

/-- Concrete spatial-distance instance: squared euclidean distance (any
concrete metric surrogate works for the structural statements proved
here). -/
def sqDist : Point2 → Point2 → ℚ := fun p q =>
  (p.1 - q.1) ^ 2 + (p.2 - q.2) ^ 2

/-- Concrete distance instance that ignores its arguments. -/
def zeroDist : Point2 → Point2 → ℚ := fun _ _ => 0

/-- Concrete geometric-union instance. -/
def pointUnion : List ShapelyGeom → ShapelyGeom := fun _ => .point (0, 0)

/-- Concrete haversine instance: L1 distance on raw coordinates (any
concrete distance works for the structural statements proved here; it
sends identical points to 0 like the real haversine). -/
def l1Dist : ℚ → ℚ → ℚ → ℚ → ℚ := fun lat1 lon1 lat2 lon2 =>
  |lat2 - lat1| + |lon2 - lon1|

/-- A fold whose step fixes every accumulator returns its initial value. -/
theorem foldl_eq_init {α β : Type} (f : β → α → β) (l : List α) (b : β)
    (h : ∀ res a, a ∈ l → f res a = res) : l.foldl f b = b := by
  induction l generalizing b with
  | nil => rfl
  | cons x xs ih =>
      rw [List.foldl_cons, h b x (by simp)]
      exact ih b (fun res a ha => h res a (by simp [ha]))

/-- The convex hull of a single point is that point. -/
theorem convex_hull_singleton (p : Point2) : convex_hull [p] = .point p := by
  simp [convex_hull]

/-- C1: the claim says every one of the four home-range estimators returns
an error entry on a single-fix track.  That fails for MCP (see the
counterexample); what holds is the amended statement proved here: on a
single-fix track T-LoCoH short-circuits with its error entry, while MCP
raises no exception and returns a result with zero `area_100`, a null
`hull_100` boundary, and no error entry at all. -/
theorem c1_single_fix_home_range (latCorr : ℚ → ℚ) (choice : ℕ → ℕ → List ℕ)
    (sdist : Point2 → Point2 → ℚ) (union : List ShapelyGeom → ShapelyGeom)
    (f : Fix) (levels : List ℕ) (hlev : ∀ p ∈ levels, p ≤ 100) :
    calculate_single_locoht sdist latCorr union [f] levels =
      [(.errK, .err "Not enough points for T-LoCoH analysis")] ∧
    calculate_single_mcp latCorr choice [(f.lon, f.lat)] levels =
      [(.areaK 100, .num 0), (.hullK 100, .geo none)] := by
  constructor
  · simp [calculate_single_locoht]
  · unfold calculate_single_mcp
    simp only [convex_hull_singleton]
    refine (foldl_eq_init _ levels _ ?_).trans ?_
    · intro res p hp
      by_cases h100 : p = 100
      · simp [calculate_single_mcp_step, h100]
      · have hlt : p < 100 := lt_of_le_of_ne (hlev p hp) h100
        have hfl : Int.floor ((p : ℚ) / 100) = 0 := by
          rw [Int.floor_eq_zero_iff, Set.mem_Ico]
          refine ⟨by positivity, ?_⟩
          rw [div_lt_one (by norm_num)]
          exact_mod_cast hlt
        simp [calculate_single_mcp_step, mcp_sample_size, h100, hfl]
    · simp [dictInsert, calculate_area_km2, geomArea, hull_to_geojson]

/-- Witness for C1 at a concrete single-fix track and the default levels. -/
theorem c1_witness :
    (∀ p ∈ [50, 95], p ≤ 100) ∧
    (calculate_single_locoht zeroDist unitCorr pointUnion [⟨0, 0, 0⟩] [50, 95] =
      [(.errK, .err "Not enough points for T-LoCoH analysis")] ∧
    calculate_single_mcp unitCorr takeChoice
        [((⟨0, 0, 0⟩ : Fix).lon, (⟨0, 0, 0⟩ : Fix).lat)] [50, 95] =
      [(.areaK 100, .num 0), (.hullK 100, .geo none)]) :=
  ⟨by decide,
   c1_single_fix_home_range unitCorr takeChoice zeroDist pointUnion
     ⟨0, 0, 0⟩ [50, 95] (by decide)⟩

/-- Counterexample for C1 as stated: on a concrete single-fix track the MCP
estimator's per-individual result contains no error entry (and no
exception path is taken: the result is a well-formed dict). -/
theorem c1_counterexample :
    dictLookup (calculate_single_mcp unitCorr takeChoice [(0, 0)] [50, 95])
      .errK = none := by
  with_unfolding_all rfl

/-- Looking up the key just written returns the written value. -/
theorem dictLookup_dictInsert_self {V : Type} (d : List (HRKey × V)) (k : HRKey)
    (v : V) : dictLookup (dictInsert d k v) k = some v := by
  induction d with
  | nil =>
      have e1 := @List.find?_cons_of_pos (HRKey × V)
        (fun kv => decide (kv.1 = k)) (k, v) [] (by simp)
      simp [dictInsert, dictLookup, e1]
  | cons kv rest ih =>
      by_cases h : kv.1 = k
      · have e1 := @List.find?_cons_of_pos (HRKey × V)
          (fun kv => decide (kv.1 = k)) (k, v) rest (by simp)
        simp [dictInsert, if_pos h, dictLookup, e1]
      · have e1 := @List.find?_cons_of_neg (HRKey × V)
          (fun kv => decide (kv.1 = k)) kv (dictInsert rest k v) (by simp [h])
        simp only [dictInsert, if_neg h, dictLookup, e1]
        exact ih

/-- Writing one key leaves lookups of other keys unchanged. -/
theorem dictLookup_dictInsert_ne {V : Type} (d : List (HRKey × V)) {k k' : HRKey}
    (v : V) (h : k' ≠ k) :
    dictLookup (dictInsert d k v) k' = dictLookup d k' := by
  induction d with
  | nil =>
      have e1 := @List.find?_cons_of_neg (HRKey × V)
        (fun kv => decide (kv.1 = k')) (k, v) [] (by simp [Ne.symm h])
      simp [dictInsert, dictLookup, e1]
  | cons kv rest ih =>
      by_cases hk : kv.1 = k
      · have e1 := @List.find?_cons_of_neg (HRKey × V)
          (fun kv => decide (kv.1 = k')) (k, v) rest (by simp [Ne.symm h])
        have e2 := @List.find?_cons_of_neg (HRKey × V)
          (fun kv => decide (kv.1 = k')) kv rest (by simp [hk, Ne.symm h])
        simp only [dictInsert, if_pos hk, dictLookup, e1, e2]
      · simp only [dictInsert, if_neg hk, dictLookup]
        by_cases hk' : kv.1 = k'
        · have e1 := @List.find?_cons_of_pos (HRKey × V)
            (fun kv => decide (kv.1 = k')) kv (dictInsert rest k v) (by simp [hk'])
          have e2 := @List.find?_cons_of_pos (HRKey × V)
            (fun kv => decide (kv.1 = k')) kv rest (by simp [hk'])
          simp only [e1, e2]
        · have e1 := @List.find?_cons_of_neg (HRKey × V)
            (fun kv => decide (kv.1 = k')) kv (dictInsert rest k v) (by simp [hk'])
          have e2 := @List.find?_cons_of_neg (HRKey × V)
            (fun kv => decide (kv.1 = k')) kv rest (by simp [hk'])
          simp only [e1, e2]
          exact ih

/-- Writing one key leaves the multiplicity of other keys unchanged. -/
theorem dictCount_dictInsert_ne {V : Type} (d : List (HRKey × V)) {k k' : HRKey}
    (v : V) (h : k' ≠ k) :
    dictCount (dictInsert d k v) k' = dictCount d k' := by
  induction d with
  | nil => simp [dictInsert, dictCount, Ne.symm h]
  | cons kv rest ih =>
      by_cases hk : kv.1 = k
      · have h2 : ¬(kv.1 = k') := by rw [hk]; exact Ne.symm h
        simp [dictInsert, if_pos hk, dictCount, List.filter_cons, Ne.symm h, h2]
      · by_cases hk' : kv.1 = k' <;>
          · simp only [dictInsert, if_neg hk, dictCount, List.filter_cons]
            simp only [dictCount] at ih
            simp [hk', ih]

/-- A fold preserves any invariant preserved by its step. -/
theorem foldl_invariant {α β : Type} (P : β → Prop) (f : β → α → β) (l : List α)
    (b : β) (hb : P b) (h : ∀ res a, a ∈ l → P res → P (f res a)) :
    P (l.foldl f b) := by
  induction l generalizing b with
  | nil => exact hb
  | cons x xs ih =>
      exact ih (f b x) (h b x (by simp) hb)
        (fun res a ha hres => h res a (by simp [ha]) hres)

/-- The boundary the MCP level loop stores for a sub-100 level. -/
def mcp_level_hull (choice : ℕ → ℕ → List ℕ) (pts : List Point2) (p : ℕ) :
    ShapelyGeom :=
  convex_hull ((choice pts.length (mcp_sample_size pts.length p)).filterMap pts.get?)

/-- What the MCP level loop leaves under the `hull_p` key of a sub-100
level: the convex hull of the sampled points when the truncated sample
size reaches 3, nothing new otherwise. -/
theorem mcp_fold_lookup_hull (latCorr : ℚ → ℚ) (choice : ℕ → ℕ → List ℕ)
    (pts : List Point2) (levels : List ℕ) (res : List (HRKey × HRVal))
    (p : ℕ) (hp100 : p ≠ 100) :
    dictLookup (levels.foldl (calculate_single_mcp_step latCorr choice pts) res)
        (.hullK p) =
      if p ∈ levels ∧ 3 ≤ mcp_sample_size pts.length p then
        some (.geo (hull_to_geojson (mcp_level_hull choice pts p)))
      else dictLookup res (.hullK p) := by
  induction levels generalizing res with
  | nil => simp
  | cons q rest ih =>
      rw [List.foldl_cons, ih (calculate_single_mcp_step latCorr choice pts res q)]
      by_cases hrest : p ∈ rest ∧ 3 ≤ mcp_sample_size pts.length p
      · simp [hrest, List.mem_cons, hrest.1, hrest.2]
      · rw [if_neg hrest]
        by_cases hq100 : q = 100
        · have hpq : ¬(p = q) := fun hc => hp100 (hc.trans hq100)
          simp only [calculate_single_mcp_step, if_pos hq100]
          simp [List.mem_cons, hpq, hrest,
            show ¬(p ∈ rest ∧ 3 ≤ mcp_sample_size pts.length p) from hrest]
        · by_cases hc : 3 ≤ mcp_sample_size pts.length q
          · by_cases hpq : p = q
            · subst hpq
              simp only [calculate_single_mcp_step, if_neg hq100, if_pos hc]
              rw [dictLookup_dictInsert_self]
              simp [List.mem_cons, hc, mcp_level_hull]
            · simp only [calculate_single_mcp_step, if_neg hq100, if_pos hc]
              rw [dictLookup_dictInsert_ne _ _ (by simp [hpq]),
                dictLookup_dictInsert_ne _ _ (by simp)]
              simp [List.mem_cons, hpq, hrest]
          · simp only [calculate_single_mcp_step, if_neg hq100, if_neg hc]
            by_cases hpq : p = q
            · subst hpq
              simp [List.mem_cons, hc, hrest]
            · simp [List.mem_cons, hpq, hrest]

/-- Companion to `mcp_fold_lookup_hull` for the `area_p` key. -/
theorem mcp_fold_lookup_area (latCorr : ℚ → ℚ) (choice : ℕ → ℕ → List ℕ)
    (pts : List Point2) (levels : List ℕ) (res : List (HRKey × HRVal))
    (p : ℕ) (hp100 : p ≠ 100) :
    dictLookup (levels.foldl (calculate_single_mcp_step latCorr choice pts) res)
        (.areaK p) =
      if p ∈ levels ∧ 3 ≤ mcp_sample_size pts.length p then
        some (.num (calculate_area_km2 latCorr (mcp_level_hull choice pts p)
          (mean_q (pts.map (·.2)))))
      else dictLookup res (.areaK p) := by
  induction levels generalizing res with
  | nil => simp
  | cons q rest ih =>
      rw [List.foldl_cons, ih (calculate_single_mcp_step latCorr choice pts res q)]
      by_cases hrest : p ∈ rest ∧ 3 ≤ mcp_sample_size pts.length p
      · simp [hrest, List.mem_cons, hrest.1, hrest.2]
      · rw [if_neg hrest]
        by_cases hq100 : q = 100
        · have hpq : ¬(p = q) := fun hc => hp100 (hc.trans hq100)
          simp only [calculate_single_mcp_step, if_pos hq100]
          simp [List.mem_cons, hpq, hrest]
        · by_cases hc : 3 ≤ mcp_sample_size pts.length q
          · by_cases hpq : p = q
            · subst hpq
              simp only [calculate_single_mcp_step, if_neg hq100, if_pos hc]
              rw [dictLookup_dictInsert_ne _ _ (by simp),
                dictLookup_dictInsert_self]
              simp [List.mem_cons, hc, mcp_level_hull]
            · simp only [calculate_single_mcp_step, if_neg hq100, if_pos hc]
              rw [dictLookup_dictInsert_ne _ _ (by simp),
                dictLookup_dictInsert_ne _ _ (by simp [hpq])]
              simp [List.mem_cons, hpq, hrest]
          · simp only [calculate_single_mcp_step, if_neg hq100, if_neg hc]
            by_cases hpq : p = q
            · subst hpq
              simp [List.mem_cons, hc, hrest]
            · simp [List.mem_cons, hpq, hrest]

/-- Indexing a list by in-range positions through `filterMap get?` keeps
the number of draws. -/
theorem filterMap_get?_length (pts : List Point2) (l : List ℕ)
    (h : ∀ j ∈ l, j < pts.length) :
    (l.filterMap pts.get?).length = l.length := by
  induction l with
  | nil => simp
  | cons j rest ih =>
      have hj : j < pts.length := h j (by simp)
      have hsome : pts[j]? = some (pts[j]) := List.getElem?_eq_getElem hj
      simp [List.filterMap_cons, List.get?_eq_getElem?, hsome,
        ih (fun i hi => h i (by simp [hi]))]

/-- The truncated sample size never exceeds the point count when the level
is at most 100. -/
theorem mcp_sample_size_le (n p : ℕ) (hp : p ≤ 100) :
    mcp_sample_size n p ≤ n := by
  unfold mcp_sample_size
  rw [Int.toNat_le]
  calc Int.floor ((n : ℚ) * ((p : ℚ) / 100)) ≤ Int.floor ((n : ℚ)) := by
        apply Int.floor_le_floor
        have h1 : ((p : ℚ) / 100) ≤ 1 := by
          rw [div_le_one (by norm_num)]
          exact_mod_cast hp
        calc (n : ℚ) * ((p : ℚ) / 100) ≤ (n : ℚ) * 1 :=
              mul_le_mul_of_nonneg_left h1 (by positivity)
          _ = (n : ℚ) := mul_one _
    _ = (n : ℤ) := Int.floor_natCast n

/-- `takeChoice` is an admissible draw without replacement. -/
theorem takeChoice_admissible (n m : ℕ) (h : m ≤ n) :
    (takeChoice n m).Nodup ∧ (takeChoice n m).length = m ∧
      ∀ j ∈ takeChoice n m, j < n := by
  refine ⟨List.Nodup.sublist (List.take_sublist _ _) (List.nodup_range n), ?_, ?_⟩
  · simp [takeChoice, List.length_take, Nat.min_eq_left h]
  · intro j hj
    have : j ∈ List.range n := List.take_subset _ _ hj
    exact List.mem_range.mp this

/-- C2 (amended): the claim says the sub-100 MCP level draws
`⌈n·p/100⌉` points; the code draws `int(n·p/100)`, the truncation (see the
counterexample).  Amended and proved: for a level `0 < p < 100` of the
requested list, when `⌊n·p/100⌋ ≥ 3` the stored level-`p` boundary is the
convex hull of the `⌊n·p/100⌋` points drawn without replacement (distinct
in-range indices, as many as the sample size), and when `⌊n·p/100⌋ < 3` no
level-`p` hull or area is produced. -/
theorem c2_mcp_level_sampling (latCorr : ℚ → ℚ) (choice : ℕ → ℕ → List ℕ)
    (pts : List Point2) (levels : List ℕ) (p : ℕ)
    (hmem : p ∈ levels) (hp0 : 0 < p) (hp100 : p < 100)
    (hchoice : ∀ n m : ℕ, m ≤ n → (choice n m).Nodup ∧
      (choice n m).length = m ∧ ∀ j ∈ choice n m, j < n) :
    (3 ≤ mcp_sample_size pts.length p →
      dictLookup (calculate_single_mcp latCorr choice pts levels) (.hullK p) =
        some (.geo (hull_to_geojson (mcp_level_hull choice pts p))) ∧
      ((choice pts.length (mcp_sample_size pts.length p)).filterMap
          pts.get?).length = mcp_sample_size pts.length p ∧
      (choice pts.length (mcp_sample_size pts.length p)).Nodup) ∧
    (mcp_sample_size pts.length p < 3 →
      dictLookup (calculate_single_mcp latCorr choice pts levels) (.hullK p) =
        none ∧
      dictLookup (calculate_single_mcp latCorr choice pts levels) (.areaK p) =
        none) := by
  have hp100' : p ≠ 100 := Nat.ne_of_lt hp100
  have hmn : mcp_sample_size pts.length p ≤ pts.length :=
    mcp_sample_size_le _ _ (le_of_lt hp100)
  obtain ⟨hnd, hlen, hbound⟩ := hchoice pts.length (mcp_sample_size pts.length p) hmn
  have hbase_hull :
      dictLookup (dictInsert (dictInsert ([] : List (HRKey × HRVal)) (.areaK 100)
          (.num (calculate_area_km2 latCorr (convex_hull pts)
            (mean_q (pts.map (·.2))))))
        (.hullK 100) (.geo (hull_to_geojson (convex_hull pts)))) (.hullK p) =
        none := by
    simp [dictInsert, dictLookup, List.find?_cons, Ne.symm hp100']
  have hbase_area :
      dictLookup (dictInsert (dictInsert ([] : List (HRKey × HRVal)) (.areaK 100)
          (.num (calculate_area_km2 latCorr (convex_hull pts)
            (mean_q (pts.map (·.2))))))
        (.hullK 100) (.geo (hull_to_geojson (convex_hull pts)))) (.areaK p) =
        none := by
    simp [dictInsert, dictLookup, List.find?_cons, Ne.symm hp100']
  constructor
  · intro h3
    refine ⟨?_, by rw [filterMap_get?_length pts _ hbound]; exact hlen, hnd⟩
    unfold calculate_single_mcp
    rw [mcp_fold_lookup_hull latCorr choice pts levels _ p hp100']
    simp [hmem, h3]
  · intro h3
    constructor
    · unfold calculate_single_mcp
      rw [mcp_fold_lookup_hull latCorr choice pts levels _ p hp100']
      rw [if_neg (by intro hc; exact absurd hc.2 (by omega))]
      exact hbase_hull
    · unfold calculate_single_mcp
      rw [mcp_fold_lookup_area latCorr choice pts levels _ p hp100']
      rw [if_neg (by intro hc; exact absurd hc.2 (by omega))]
      exact hbase_area

/-- Witness for C2 at five concrete points and level 80, whose truncated
sample size is 4: the level boundary is the hull of the four sampled
points. -/
theorem c2_witness :
    dictLookup (calculate_single_mcp unitCorr takeChoice
        [(0, 0), (4, 0), (4, 4), (0, 4), (2, 2)] [80]) (.hullK 80) =
      some (.geo (hull_to_geojson
        (mcp_level_hull takeChoice [(0, 0), (4, 0), (4, 4), (0, 4), (2, 2)] 80))) :=
  ((c2_mcp_level_sampling unitCorr takeChoice
      [(0, 0), (4, 0), (4, 4), (0, 4), (2, 2)] [80] 80 (by decide) (by decide)
      (by decide) takeChoice_admissible).1
    (by with_unfolding_all decide)).1

/-- Counterexample for C2 as stated: five points at level 50 give a
ceiling sample size of 3, so the claim promises a level-50 hull, but the
code's truncated sample size is 2 and no level-50 entry is produced. -/
theorem c2_counterexample :
    (Int.ceil ((5 : ℚ) * (50 / 100)) = 3) ∧
    dictLookup (calculate_single_mcp unitCorr takeChoice
        [(0, 0), (4, 0), (4, 4), (0, 4), (2, 2)] [50]) (.hullK 50) = none ∧
    dictLookup (calculate_single_mcp unitCorr takeChoice
        [(0, 0), (4, 0), (4, 4), (0, 4), (2, 2)] [50]) (.areaK 50) = none := by
  refine ⟨by norm_num [Int.ceil_eq_iff], ?_, ?_⟩ <;> with_unfolding_all rfl

/-- C10: for every non-empty track the MCP result always carries the full
100% hull of all the track's points and its area, under the `area_100` and
`hull_100` keys, each stored exactly once — a requested level of 100 is
skipped by the loop rather than recomputed. -/
theorem c10_mcp_full_hull_always (latCorr : ℚ → ℚ) (choice : ℕ → ℕ → List ℕ)
    (pts : List Point2) (levels : List ℕ) (hne : pts ≠ []) :
    dictLookup (calculate_single_mcp latCorr choice pts levels) (.areaK 100) =
      some (.num (calculate_area_km2 latCorr (convex_hull pts)
        (mean_q (pts.map (·.2))))) ∧
    dictLookup (calculate_single_mcp latCorr choice pts levels) (.hullK 100) =
      some (.geo (hull_to_geojson (convex_hull pts))) ∧
    dictCount (calculate_single_mcp latCorr choice pts levels) (.areaK 100) = 1 ∧
    dictCount (calculate_single_mcp latCorr choice pts levels) (.hullK 100) = 1 := by
  have main : ∀ (base : List (HRKey × HRVal)),
      (dictLookup base (.areaK 100) =
        some (.num (calculate_area_km2 latCorr (convex_hull pts)
          (mean_q (pts.map (·.2))))) ∧
       dictLookup base (.hullK 100) =
        some (.geo (hull_to_geojson (convex_hull pts))) ∧
       dictCount base (.areaK 100) = 1 ∧ dictCount base (.hullK 100) = 1) →
      (dictLookup (levels.foldl (calculate_single_mcp_step latCorr choice pts)
          base) (.areaK 100) =
        some (.num (calculate_area_km2 latCorr (convex_hull pts)
          (mean_q (pts.map (·.2))))) ∧
       dictLookup (levels.foldl (calculate_single_mcp_step latCorr choice pts)
          base) (.hullK 100) =
        some (.geo (hull_to_geojson (convex_hull pts))) ∧
       dictCount (levels.foldl (calculate_single_mcp_step latCorr choice pts)
          base) (.areaK 100) = 1 ∧
       dictCount (levels.foldl (calculate_single_mcp_step latCorr choice pts)
          base) (.hullK 100) = 1) := by
    intro base hb
    refine foldl_invariant (fun res =>
      dictLookup res (.areaK 100) =
        some (.num (calculate_area_km2 latCorr (convex_hull pts)
          (mean_q (pts.map (·.2))))) ∧
      dictLookup res (.hullK 100) =
        some (.geo (hull_to_geojson (convex_hull pts))) ∧
      dictCount res (.areaK 100) = 1 ∧ dictCount res (.hullK 100) = 1)
      (calculate_single_mcp_step latCorr choice pts) levels base hb ?_
    intro res q _ hres
    unfold calculate_single_mcp_step
    by_cases hq100 : q = 100
    · simpa [hq100] using hres
    · by_cases hc : 3 ≤ mcp_sample_size pts.length q
      · have hne1 : HRKey.areaK 100 ≠ HRKey.areaK q := by
          intro hcon; cases hcon; exact hq100 rfl
        have hne2 : HRKey.areaK 100 ≠ HRKey.hullK q := by intro hcon; cases hcon
        have hne3 : HRKey.hullK 100 ≠ HRKey.areaK q := by intro hcon; cases hcon
        have hne4 : HRKey.hullK 100 ≠ HRKey.hullK q := by
          intro hcon; cases hcon; exact hq100 rfl
        simp only [if_neg hq100, if_pos hc]
        refine ⟨?_, ?_, ?_, ?_⟩
        · rw [dictLookup_dictInsert_ne _ _ hne2, dictLookup_dictInsert_ne _ _ hne1]
          exact hres.1
        · rw [dictLookup_dictInsert_ne _ _ hne4, dictLookup_dictInsert_ne _ _ hne3]
          exact hres.2.1
        · rw [dictCount_dictInsert_ne _ _ hne2, dictCount_dictInsert_ne _ _ hne1]
          exact hres.2.2.1
        · rw [dictCount_dictInsert_ne _ _ hne4, dictCount_dictInsert_ne _ _ hne3]
          exact hres.2.2.2
      · simpa [hq100, hc] using hres
  exact main _ (by refine ⟨?_, ?_, ?_, ?_⟩ <;>
    simp [dictInsert, dictLookup, dictCount])

/-- Witness for C10 at a concrete one-point track with the fixed point 100
among the requested levels. -/
theorem c10_witness :
    dictLookup (calculate_single_mcp unitCorr takeChoice [(0, 0)] [100])
        (.areaK 100) =
      some (.num (calculate_area_km2 unitCorr (convex_hull [(0, 0)])
        (mean_q ([((0 : ℚ), (0 : ℚ))].map (·.2))))) ∧
    dictLookup (calculate_single_mcp unitCorr takeChoice [(0, 0)] [100])
        (.hullK 100) =
      some (.geo (hull_to_geojson (convex_hull [(0, 0)]))) ∧
    dictCount (calculate_single_mcp unitCorr takeChoice [(0, 0)] [100])
        (.areaK 100) = 1 ∧
    dictCount (calculate_single_mcp unitCorr takeChoice [(0, 0)] [100])
        (.hullK 100) = 1 :=
  c10_mcp_full_hull_always unitCorr takeChoice [(0, 0)] [100]
    (List.cons_ne_nil _ _)

/-- Unfolding equation of `np_argmin` on a list of two or more entries. -/
theorem np_argmin_cons_cons (x y : ℚ) (ys : List ℚ) :
    np_argmin (x :: y :: ys) =
      if x ≤ (y :: ys).getD (np_argmin (y :: ys)) 0 then 0
      else np_argmin (y :: ys) + 1 := rfl

/-- `np_argmin` returns an in-range index of the minimum, and the first
such index: every earlier entry is strictly larger. -/
theorem np_argmin_spec (l : List ℚ) (h : l ≠ []) :
    np_argmin l < l.length ∧
    (∀ j < l.length, l.getD (np_argmin l) 0 ≤ l.getD j 0) ∧
    (∀ j < np_argmin l, l.getD j 0 > l.getD (np_argmin l) 0) := by
  induction l with
  | nil => exact absurd rfl h
  | cons x xs ih =>
      match xs with
      | [] =>
          refine ⟨by simp [np_argmin], ?_, ?_⟩
          · intro j hj
            have hj0 : j = 0 := by simpa using Nat.lt_one_iff.mp (by simpa using hj)
            subst hj0
            simp [np_argmin]
          · intro j hj
            simp [np_argmin] at hj
      | y :: ys =>
          obtain ⟨hlen, hmin, hfirst⟩ := ih (List.cons_ne_nil y ys)
          by_cases hx : x ≤ (y :: ys).getD (np_argmin (y :: ys)) 0
          · have hdef : np_argmin (x :: y :: ys) = 0 := by
              rw [np_argmin_cons_cons, if_pos hx]
            refine ⟨by simp [hdef], ?_, ?_⟩
            · intro j hj
              rw [hdef]
              match j with
              | 0 => simp
              | j + 1 =>
                  simp only [List.getD_cons_zero, List.getD_cons_succ]
                  exact le_trans hx (hmin j (by simpa using hj))
            · intro j hj
              rw [hdef] at hj
              omega
          · have hdef : np_argmin (x :: y :: ys) = np_argmin (y :: ys) + 1 := by
              rw [np_argmin_cons_cons, if_neg hx]
            have hvx : (y :: ys).getD (np_argmin (y :: ys)) 0 < x := lt_of_not_le hx
            refine ⟨by simpa [hdef] using hlen, ?_, ?_⟩
            · intro j hj
              rw [hdef]
              match j with
              | 0 => simpa using le_of_lt hvx
              | j + 1 =>
                  simp only [List.getD_cons_succ]
                  exact hmin j (by simpa using hj)
            · intro j hj
              rw [hdef] at hj ⊢
              match j with
              | 0 => simpa using hvx
              | j + 1 =>
                  simp only [List.getD_cons_succ]
                  exact hfirst j (by omega)

/-- `np_cumsum` preserves length. -/
theorem np_cumsum_length (l : List ℚ) : (np_cumsum l).length = l.length := by
  simp [np_cumsum, List.length_tail, List.length_scanl]

/-- C3 (amended): the claim says the contour threshold is the first density
(in descending order) whose normalized cumulative mass reaches `p/100`.
`calculate_single_kde` in src/app.py instead takes the density at the index
whose normalized cumulative mass is NEAREST to `p/100` (first such index on
ties) — see the counterexample; the helper `calculate_home_range_kde` in
src/components/analysis.py does use the first-reach rule of the claim.
Both characterizations are proved here. -/
theorem c3_kde_threshold_selection (ds : List ℚ) (p : ℕ) (hne : ds ≠ []) :
    (∀ j < (np_cumsum (np_sort_desc ds)).length,
      |((np_cumsum (np_sort_desc ds)).map
          (· / (np_cumsum (np_sort_desc ds)).getLastD 0)).getD
         (np_argmin (((np_cumsum (np_sort_desc ds)).map
            (· / (np_cumsum (np_sort_desc ds)).getLastD 0)).map
              (fun c => |c - (p : ℚ) / 100|))) 0 - (p : ℚ) / 100| ≤
      |((np_cumsum (np_sort_desc ds)).map
          (· / (np_cumsum (np_sort_desc ds)).getLastD 0)).getD j 0 -
        (p : ℚ) / 100|) ∧
    calculate_single_kde_level ds p =
      (np_sort_desc ds).getD
        (np_argmin (((np_cumsum (np_sort_desc ds)).map
          (· / (np_cumsum (np_sort_desc ds)).getLastD 0)).map
            (fun c => |c - (p : ℚ) / 100|))) 0 ∧
    calculate_home_range_kde_threshold ds p = spec_contour_threshold ds p := by
  refine ⟨?_, rfl, rfl⟩
  intro j hj
  have hlen1 : (np_sort_desc ds) ≠ [] := by
    unfold np_sort_desc
    intro hcon
    have := List.length_insertionSort (fun a b : ℚ => b ≤ a) ds
    rw [hcon] at this
    exact hne (List.length_eq_zero.mp (by simpa using this.symm))
  have hlen2 : (np_cumsum (np_sort_desc ds)) ≠ [] := by
    intro hcon
    have h1 := np_cumsum_length (np_sort_desc ds)
    rw [hcon] at h1
    exact hlen1 (List.length_eq_zero.mp h1.symm)
  set cn := (np_cumsum (np_sort_desc ds)).map
    (· / (np_cumsum (np_sort_desc ds)).getLastD 0) with hcn
  have hcne : cn ≠ [] := by
    rw [hcn]
    simpa using hlen2
  have habs : (cn.map (fun c => |c - (p : ℚ) / 100|)) ≠ [] := by
    simpa using hcne
  obtain ⟨hlt, hminim, _⟩ := np_argmin_spec (cn.map (fun c => |c - (p : ℚ) / 100|)) habs
  have hjlen : j < (cn.map (fun c => |c - (p : ℚ) / 100|)).length := by
    simpa [hcn] using hj
  have h1 := hminim j hjlen
  have hgetD : ∀ i < cn.length,
      (cn.map (fun c => |c - (p : ℚ) / 100|)).getD i 0 = |cn.getD i 0 - (p : ℚ) / 100| := by
    intro i hi
    rw [List.getD_eq_getElem?_getD, List.getElem?_map,
      List.getElem?_eq_getElem hi]
    simp [List.getD_eq_getElem?_getD, List.getElem?_eq_getElem hi]
  have hidx : np_argmin (cn.map (fun c => |c - (p : ℚ) / 100|)) < cn.length := by
    simpa using hlt
  rw [hgetD _ hidx, hgetD j (by simpa [hcn] using hj)] at h1
  exact h1

/-- Witness for C3's amended theorem at a concrete density vector and the
concrete competing index 1: the nearest-mass index beats index 1. -/
theorem c3_witness :
    |((np_cumsum (np_sort_desc [(5 : ℚ), 2, 2, 1])).map
        (· / (np_cumsum (np_sort_desc [(5 : ℚ), 2, 2, 1])).getLastD 0)).getD
       (np_argmin (((np_cumsum (np_sort_desc [(5 : ℚ), 2, 2, 1])).map
          (· / (np_cumsum (np_sort_desc [(5 : ℚ), 2, 2, 1])).getLastD 0)).map
            (fun c => |c - (60 : ℕ) / 100|))) 0 - (60 : ℕ) / 100| ≤
    |((np_cumsum (np_sort_desc [(5 : ℚ), 2, 2, 1])).map
        (· / (np_cumsum (np_sort_desc [(5 : ℚ), 2, 2, 1])).getLastD 0)).getD 1 0 -
      (60 : ℕ) / 100| :=
  (c3_kde_threshold_selection [(5 : ℚ), 2, 2, 1] 60 (List.cons_ne_nil _ _)).1 1
    (by with_unfolding_all decide)

/-- Counterexample for C3 as stated: for the density vector [5, 2, 2, 1]
and level 60, the normalized cumulative masses are [1/2, 7/10, 9/10, 1];
the app's nearest-mass rule picks index 0 (threshold 5) while the claimed
first-reach rule picks index 1 (threshold 2). -/
theorem c3_counterexample :
    calculate_single_kde_level [(5 : ℚ), 2, 2, 1] 60 = 5 ∧
    spec_contour_threshold [(5 : ℚ), 2, 2, 1] 60 = 2 ∧
    calculate_single_kde_level [(5 : ℚ), 2, 2, 1] 60 ≠
      spec_contour_threshold [(5 : ℚ), 2, 2, 1] 60 := by
  refine ⟨?_, ?_, ?_⟩ <;> with_unfolding_all decide

/-- `argsortIdx` is a permutation of the index range. -/
theorem argsortIdx_perm (l : List (WithTop ℚ)) :
    (argsortIdx l).Perm (List.range l.length) :=
  List.perm_insertionSort (idxLE l) (List.range l.length)

/-- The combined-distance row has one entry per track point. -/
theorem locoht_row_length (sdist : Point2 → Point2 → ℚ) (coords : List Point2)
    (times : List ℚ) (i : ℕ) :
    (locoht_row sdist coords times i).length = coords.length := by
  simp [locoht_row]

/-- C4 (amended): the claim says each local hull is built from exactly
`k = min(15, n-1)` nearest neighbours with the point itself excluded.  The
code slices `k + 1` indices out of the argsort of the combined-distance
row (src/app.py line 1911, "+1 to include self"), so the neighbour list
has `min(k + 1, n)` entries, and whenever `n ≤ 16` (where `k + 1 = n`) the
slice is the whole index range and contains the point itself — see the
counterexample. -/
theorem c4_locoht_neighbors (sdist : Point2 → Point2 → ℚ) (coords : List Point2)
    (times : List ℚ) (i : ℕ) (h5 : 5 ≤ coords.length)
    (hi : i < coords.length) :
    (neighbors_idx (locoht_row sdist coords times i)
        (locoht_k coords.length)).length =
      min (locoht_k coords.length + 1) coords.length ∧
    (coords.length ≤ 16 →
      i ∈ neighbors_idx (locoht_row sdist coords times i)
        (locoht_k coords.length)) := by
  have hrl : (locoht_row sdist coords times i).length = coords.length :=
    locoht_row_length sdist coords times i
  have hperm := argsortIdx_perm (locoht_row sdist coords times i)
  have hal : (argsortIdx (locoht_row sdist coords times i)).length =
      coords.length := by
    rw [hperm.length_eq, List.length_range, hrl]
  constructor
  · simp [neighbors_idx, List.length_take, hal]
  · intro h16
    have hk : locoht_k coords.length + 1 = coords.length := by
      unfold locoht_k
      omega
    have htake : (argsortIdx (locoht_row sdist coords times i)).take
        (locoht_k coords.length + 1) =
        argsortIdx (locoht_row sdist coords times i) :=
      List.take_of_length_le (by omega)
    unfold neighbors_idx
    rw [htake, hperm.mem_iff, hrl, List.mem_range]
    exact hi

/-- Witness for C4 at five concrete points: the neighbour list of point 0
has all five indices, itself included. -/
theorem c4_witness :
    (neighbors_idx (locoht_row sqDist
        [(0, 0), (1, 0), (2, 0), (0, 1), (3, 3)] [0, 60, 120, 180, 240] 0)
        (locoht_k 5)).length = min (locoht_k 5 + 1) 5 ∧
    ((5 : ℕ) ≤ 16 →
      0 ∈ neighbors_idx (locoht_row sqDist
        [(0, 0), (1, 0), (2, 0), (0, 1), (3, 3)] [0, 60, 120, 180, 240] 0)
        (locoht_k 5)) :=
  c4_locoht_neighbors sqDist [(0, 0), (1, 0), (2, 0), (0, 1), (3, 3)]
    [0, 60, 120, 180, 240] 0 (by decide) (by decide)

set_option maxRecDepth 4000 in
/-- Counterexample for C4 as stated: at a concrete 5-point track, point
0's neighbour-index slice contains point 0 itself (self not excluded) and
has 5 entries rather than the claimed k = min(15, 4) = 4. -/
theorem c4_counterexample :
    0 ∈ neighbors_idx (locoht_row sqDist
        [(0, 0), (1, 0), (2, 0), (0, 1), (3, 3)] [0, 60, 120, 180, 240] 0)
      (locoht_k 5) ∧
    (neighbors_idx (locoht_row sqDist
        [(0, 0), (1, 0), (2, 0), (0, 1), (3, 3)] [0, 60, 120, 180, 240] 0)
      (locoht_k 5)).length ≠ locoht_k 5 := by
  constructor <;> with_unfolding_all decide

/-- The zero fix, used as the irrelevant `getD` default in index
formulas. -/
def fix0 : Fix := ⟨0, 0, 0⟩

/-- Indexing a zip pointwise. -/
theorem getElem?_zip' {α β : Type} (l1 : List α) (l2 : List β) (i : ℕ) :
    (l1.zip l2)[i]? =
      match l1[i]?, l2[i]? with
      | some a, some b => some (a, b)
      | _, _ => none :=
  List.getElem?_zipWith

/-- In-range optional indexing agrees with `getD`. -/
theorem getElem?_eq_some_getD {α : Type} (l : List α) (d : α) (i : ℕ)
    (h : i < l.length) : l[i]? = some (l.getD i d) := by
  rw [List.getElem?_eq_getElem h, List.getD_eq_getElem?_getD,
    List.getElem?_eq_getElem h]
  rfl

/-- Row `i` of the `distance` column holds the forward distance when a next
fix exists and `NaN` (`none`) in the last row. -/
theorem activity_distance_get? (hav : ℚ → ℚ → ℚ → ℚ → ℚ) (df : List Fix)
    (i : ℕ) (hi : i < df.length) :
    (activity_distance hav df)[i]? =
      some (if i + 1 < df.length then
        some (hav (df.getD i fix0).lat (df.getD i fix0).lon
          (df.getD (i + 1) fix0).lat (df.getD (i + 1) fix0).lon)
      else none) := by
  match df with
  | [] => simp at hi
  | x :: rest =>
      simp only [activity_distance]
      have hzl : ((x :: rest).zip (x :: rest).tail).length = rest.length := by
        simp [List.length_zip]
      rw [List.getElem?_append]
      by_cases h1 : i + 1 < (x :: rest).length
      · have hilt : i < (((x :: rest).zip (x :: rest).tail).map
            (fun ab => some (hav ab.1.lat ab.1.lon ab.2.lat ab.2.lon))).length := by
          rw [List.length_map, hzl]
          simp only [List.length_cons] at h1
          omega
        rw [if_pos (by simpa using hilt)]
        rw [List.getElem?_map]
        have hz : ((x :: rest).zip (x :: rest).tail)[i]? =
            some ((x :: rest).getD i fix0, (x :: rest).getD (i + 1) fix0) := by
          rw [getElem?_zip']
          rw [getElem?_eq_some_getD _ fix0 i hi]
          rw [List.getElem?_tail, getElem?_eq_some_getD _ fix0 (i + 1) h1]
        rw [hz, if_pos h1]
        rfl
      · have hieq : i = rest.length := by
          simp at hi h1
          omega
        rw [if_neg (by rw [List.length_map, hzl]; omega)]
        rw [if_neg h1]
        have : i - (((x :: rest).zip (x :: rest).tail).map
            (fun ab => some (hav ab.1.lat ab.1.lon ab.2.lat ab.2.lon))).length = 0 := by
          simp [hzl, hieq]
        rw [this]
        rfl

/-- Row `i` of the `time_diff` column holds the backward time delta in
minutes when a previous fix exists and `NaN` (`none`) in the first row. -/
theorem activity_time_diff_get? (df : List Fix) (i : ℕ) (hi : i < df.length) :
    (activity_time_diff df)[i]? =
      some (if 0 < i then
        some (((df.getD i fix0).t - (df.getD (i - 1) fix0).t) / 60)
      else none) := by
  match df, i with
  | [], _ => simp at hi
  | x :: rest, 0 => simp [activity_time_diff]
  | x :: rest, i + 1 =>
      simp only [activity_time_diff]
      rw [List.getElem?_cons_succ, List.getElem?_map]
      have hi' : i + 1 < (x :: rest).length := hi
      have hii : i < (x :: rest).length := by omega
      have hz : ((x :: rest).zip (x :: rest).tail)[i]? =
          some ((x :: rest).getD i fix0, (x :: rest).getD (i + 1) fix0) := by
        rw [getElem?_zip']
        rw [getElem?_eq_some_getD _ fix0 i hii]
        rw [List.getElem?_tail, getElem?_eq_some_getD _ fix0 (i + 1) hi']
      rw [hz]
      simp

/-- C5 (amended): the claim says `is_active` tests the step distance to the
PREVIOUS fix; `calculate_single_activity` fills the `distance` column with
the distance from each fix to the NEXT fix (loop over `i, i+1`, src/app.py
lines 2100-2106) while `time_diff` is the delta since the previous fix, so
row `i` is active iff the distance to the next fix exceeds the threshold
and the time since the previous fix is within the window (pandas `NaN`
comparisons at the track ends are false). -/
theorem c5_activity_is_active (hav : ℚ → ℚ → ℚ → ℚ → ℚ) (df : List Fix)
    (thr window : ℚ) (i : ℕ) (hi : i < df.length) :
    (calculate_single_activity hav df thr window)[i]? =
      some (
        (decide (i + 1 < df.length) &&
          decide (thr < hav (df.getD i fix0).lat (df.getD i fix0).lon
            (df.getD (i + 1) fix0).lat (df.getD (i + 1) fix0).lon)) &&
        (decide (0 < i) &&
          decide (((df.getD i fix0).t - (df.getD (i - 1) fix0).t) / 60 ≤
            window))) := by
  unfold calculate_single_activity
  rw [List.getElem?_zipWith, activity_distance_get? hav df i hi,
    activity_time_diff_get? df i hi]
  by_cases h1 : i + 1 < df.length <;> by_cases h0 : 0 < i <;>
    simp [h1, h0]

/-- Witness for C5: a concrete three-fix track whose middle fix is distant
from its successor but coincides with its predecessor is classified
active. -/
theorem c5_witness :
    (calculate_single_activity l1Dist
        [⟨0, 0, 0⟩, ⟨600, 0, 0⟩, ⟨1200, 0, 1⟩] (1 / 20) 60)[1]? = some true :=
  (c5_activity_is_active l1Dist [⟨0, 0, 0⟩, ⟨600, 0, 0⟩, ⟨1200, 0, 1⟩]
      (1 / 20) 60 1 (by decide)).trans
    (by with_unfolding_all decide)

/-- Counterexample for C5 as stated: on the same track the classifier marks
fix 1 active although its step distance to the previous fix is 0 (the
spec-faithful rule marks it inactive). -/
theorem c5_counterexample :
    (calculate_single_activity l1Dist
        [⟨0, 0, 0⟩, ⟨600, 0, 0⟩, ⟨1200, 0, 1⟩] (1 / 20) 60)[1]? = some true ∧
    (spec_is_active l1Dist
        [⟨0, 0, 0⟩, ⟨600, 0, 0⟩, ⟨1200, 0, 1⟩] (1 / 20) 60)[1]? =
      some false := by
  constructor <;> with_unfolding_all decide

/-- Membership in a consecutive-pair `filterMap` is witnessed by an index
and the two adjacent entries. -/
theorem mem_pairs_filterMap {α β : Type} (l : List α) (g : α × α → Option β)
    (b : β) :
    b ∈ (l.zip l.tail).filterMap g ↔
      ∃ i a1 a2, l[i]? = some a1 ∧ l[i + 1]? = some a2 ∧
        g (a1, a2) = some b := by
  rw [List.mem_filterMap]
  constructor
  · rintro ⟨⟨a1, a2⟩, hmem, hg⟩
    obtain ⟨i, hi⟩ := List.mem_iff_getElem?.mp hmem
    rw [getElem?_zip'] at hi
    cases hl1 : l[i]? with
    | none => rw [hl1] at hi; simp at hi
    | some x =>
        cases hl2 : l.tail[i]? with
        | none => rw [hl1, hl2] at hi; simp at hi
        | some y =>
            rw [hl1, hl2] at hi
            simp only [Option.some.injEq, Prod.mk.injEq] at hi
            refine ⟨i, a1, a2, ?_, ?_, hg⟩
            · rw [hl1, hi.1]
            · rw [← List.getElem?_tail, hl2, hi.2]
  · rintro ⟨i, a1, a2, h1, h2, hg⟩
    refine ⟨(a1, a2), ?_, hg⟩
    rw [List.mem_iff_getElem?]
    refine ⟨i, ?_⟩
    rw [getElem?_zip', h1, List.getElem?_tail, h2]

/-- C6: the coarse quality report flags a consecutive pair as an outage
exactly when its gap exceeds twice the expected interval, reporting start,
end and duration; the finer per-individual gap report of
`calculate_fix_success` uses the three-times threshold, reporting start,
end and duration in hours. -/
theorem c6_outage_thresholds (df : List Fix) (E : ℚ) :
    (∀ o : QMOutage, o ∈ (calculate_quality_metrics df E).outages ↔
      ∃ i t1 t2, ((List.insertionSort fixLE df).map Fix.t)[i]? = some t1 ∧
        ((List.insertionSort fixLE df).map Fix.t)[i + 1]? = some t2 ∧
        E * 2 < (t2 - t1) / 60 ∧ o = ⟨t1, t2, (t2 - t1) / 60⟩) ∧
    (∀ r : FixSuccessResult, calculate_fix_success E df = some r →
      ∀ g : GapEntry, g ∈ r.gaps ↔
        ∃ i t1 t2, ((List.insertionSort fixLE df).map Fix.t)[i]? = some t1 ∧
          ((List.insertionSort fixLE df).map Fix.t)[i + 1]? = some t2 ∧
          E * 3 < (t2 - t1) / 60 ∧
          g = ⟨t2 - (t2 - t1) / 60 * 60, t2, (t2 - t1) / 60 / 60⟩) := by
  constructor
  · intro o
    have houts : (calculate_quality_metrics df E).outages =
        (((List.insertionSort fixLE df).map Fix.t).zip
          ((List.insertionSort fixLE df).map Fix.t).tail).filterMap
          (fun ab =>
            if E * 2 < (ab.2 - ab.1) / 60 then
              some ⟨ab.1, ab.2, (ab.2 - ab.1) / 60⟩
            else none) := rfl
    rw [houts, mem_pairs_filterMap]
    constructor
    · rintro ⟨i, t1, t2, h1, h2, hg⟩
      by_cases hc : E * 2 < (t2 - t1) / 60
      · rw [if_pos hc] at hg
        exact ⟨i, t1, t2, h1, h2, hc, (Option.some.inj hg).symm⟩
      · rw [if_neg hc] at hg
        exact absurd hg (by simp)
    · rintro ⟨i, t1, t2, h1, h2, hc, ho⟩
      exact ⟨i, t1, t2, h1, h2, by rw [if_pos hc, ho]⟩
  · intro r hr g
    by_cases hlen : df.length < 2
    · rw [calculate_fix_success, if_pos hlen] at hr
      exact absurd hr (by simp)
    · rw [calculate_fix_success, if_neg hlen] at hr
      have hg : r.gaps =
          (((List.insertionSort fixLE df).map Fix.t).zip
            ((List.insertionSort fixLE df).map Fix.t).tail).filterMap
            (fun ab =>
              if E * 3 < (ab.2 - ab.1) / 60 then
                some ⟨ab.2 - (ab.2 - ab.1) / 60 * 60, ab.2,
                  (ab.2 - ab.1) / 60 / 60⟩
              else none) := by
        rw [← Option.some.inj hr]
      rw [hg, mem_pairs_filterMap]
      constructor
      · rintro ⟨i, t1, t2, h1, h2, hgg⟩
        by_cases hc : E * 3 < (t2 - t1) / 60
        · rw [if_pos hc] at hgg
          exact ⟨i, t1, t2, h1, h2, hc, (Option.some.inj hgg).symm⟩
        · rw [if_neg hc] at hgg
          exact absurd hgg (by simp)
      · rintro ⟨i, t1, t2, h1, h2, hc, ho⟩
        exact ⟨i, t1, t2, h1, h2, by rw [if_pos hc, ho]⟩

set_option maxRecDepth 8000 in
/-- Witness for C6: a five-fix hourly track with one 300-minute gap has
that gap reported as the single outage (duration 300 minutes) and as the
single fine-report gap (duration 5 hours). -/
theorem c6_witness :
    (⟨3600, 21600, 300⟩ : QMOutage) ∈
      (calculate_quality_metrics
        [⟨0, 0, 0⟩, ⟨3600, 0, 0⟩, ⟨21600, 0, 0⟩, ⟨25200, 0, 0⟩] 60).outages ∧
    calculate_fix_success 60
        [⟨0, 0, 0⟩, ⟨3600, 0, 0⟩, ⟨21600, 0, 0⟩, ⟨25200, 0, 0⟩] =
      some ⟨50, 6, 3, 3, [⟨3600, 21600, 5⟩], 5⟩ ∧
    (⟨3600, 21600, 5⟩ : GapEntry) ∈
      [(⟨3600, 21600, 5⟩ : GapEntry)] := by
  refine ⟨?_, ?_, by simp⟩
  · exact ((c6_outage_thresholds
      [⟨0, 0, 0⟩, ⟨3600, 0, 0⟩, ⟨21600, 0, 0⟩, ⟨25200, 0, 0⟩] 60).1 _).mpr
      ⟨1, 3600, 21600, by with_unfolding_all rfl,
        by with_unfolding_all rfl,
        of_decide_eq_true (by with_unfolding_all rfl),
        by with_unfolding_all rfl⟩
  · with_unfolding_all rfl

/-- C7 (amended): the claim's exact formula holds only for the
per-individual report; the dashboard report truncates `expected_fixes` to
an integer first (see the counterexample).  What holds for both reports,
proved here: the rate is 0 when the expected count is not positive and is
always within [0, 100]. -/
theorem c7_fix_success_rate_range (df : List Fix) (E : ℚ) :
    0 ≤ (calculate_quality_metrics df E).summary.fix_success_rate ∧
    (calculate_quality_metrics df E).summary.fix_success_rate ≤ 100 ∧
    ((calculate_quality_metrics df E).summary.expected_points ≤ 0 →
      (calculate_quality_metrics df E).summary.fix_success_rate = 0) ∧
    (∀ r : FixSuccessResult, calculate_fix_success E df = some r →
      0 ≤ r.fix_success_rate ∧ r.fix_success_rate ≤ 100) := by
  have hef : (calculate_quality_metrics df E).summary.expected_points =
      Int.floor ((((List.insertionSort fixLE df).map Fix.t).getLastD 0 -
        ((List.insertionSort fixLE df).map Fix.t).headD 0) / 60 / E) := rfl
  have hrate : (calculate_quality_metrics df E).summary.fix_success_rate =
      (if 0 < (calculate_quality_metrics df E).summary.expected_points then
        min 100 ((df.length : ℚ) /
          ((calculate_quality_metrics df E).summary.expected_points : ℚ) * 100)
      else 0) := rfl
  refine ⟨?_, ?_, ?_, ?_⟩
  · rw [hrate]
    by_cases hp : 0 < (calculate_quality_metrics df E).summary.expected_points
    · rw [if_pos hp]
      have : (0 : ℚ) ≤ (df.length : ℚ) /
          ((calculate_quality_metrics df E).summary.expected_points : ℚ) * 100 := by
        have h1 : (0 : ℚ) ≤ (df.length : ℚ) := by positivity
        have h2 : (0 : ℚ) <
            ((calculate_quality_metrics df E).summary.expected_points : ℚ) := by
          exact_mod_cast hp
        positivity
      exact le_min (by norm_num) this
    · rw [if_neg hp]
  · rw [hrate]
    by_cases hp : 0 < (calculate_quality_metrics df E).summary.expected_points
    · rw [if_pos hp]
      exact min_le_left _ _
    · rw [if_neg hp]
      norm_num
  · intro hle
    rw [hrate, if_neg (by omega)]
  · intro r hr
    by_cases hlen : df.length < 2
    · rw [calculate_fix_success, if_pos hlen] at hr
      exact absurd hr (by simp)
    · rw [calculate_fix_success, if_neg hlen] at hr
      have hrr := Option.some.inj hr
      have hrate2 : r.fix_success_rate =
          (if 0 < (((List.insertionSort fixLE df).map Fix.t).tail.getLastD 0 -
              ((List.insertionSort fixLE df).map Fix.t).tail.headD 0) / 60 / E
          then
            min ((((List.insertionSort fixLE df).map Fix.t).tail.length : ℚ) /
              ((((List.insertionSort fixLE df).map Fix.t).tail.getLastD 0 -
                ((List.insertionSort fixLE df).map Fix.t).tail.headD 0) / 60 / E)
                * 100) 100
          else 0) := by
        rw [← hrr]
      rw [hrate2]
      by_cases hp : 0 < (((List.insertionSort fixLE df).map Fix.t).tail.getLastD 0 -
          ((List.insertionSort fixLE df).map Fix.t).tail.headD 0) / 60 / E
      · rw [if_pos hp]
        constructor
        · have : (0 : ℚ) ≤
              ((((List.insertionSort fixLE df).map Fix.t).tail.length : ℚ) /
              ((((List.insertionSort fixLE df).map Fix.t).tail.getLastD 0 -
                ((List.insertionSort fixLE df).map Fix.t).tail.headD 0) / 60 / E)
                * 100) := by
            have h1 : (0 : ℚ) ≤
                (((List.insertionSort fixLE df).map Fix.t).tail.length : ℚ) := by
              positivity
            positivity
          exact le_min this (by norm_num)
        · exact min_le_right _ _
      · rw [if_neg hp]
        norm_num

/-- Witness for C7: a three-fix hourly track has rate 100, inside the
range. -/
theorem c7_witness :
    (0 : ℚ) ≤ (calculate_quality_metrics
        [⟨0, 0, 0⟩, ⟨3600, 0, 0⟩, ⟨7200, 0, 0⟩] 60).summary.fix_success_rate ∧
    (calculate_quality_metrics
        [⟨0, 0, 0⟩, ⟨3600, 0, 0⟩, ⟨7200, 0, 0⟩] 60).summary.fix_success_rate ≤
      100 ∧
    (calculate_quality_metrics
        [⟨0, 0, 0⟩, ⟨3600, 0, 0⟩, ⟨7200, 0, 0⟩] 60).summary.fix_success_rate =
      100 :=
  ⟨(c7_fix_success_rate_range [⟨0, 0, 0⟩, ⟨3600, 0, 0⟩, ⟨7200, 0, 0⟩] 60).1,
   (c7_fix_success_rate_range [⟨0, 0, 0⟩, ⟨3600, 0, 0⟩, ⟨7200, 0, 0⟩] 60).2.1,
   by with_unfolding_all rfl⟩

/-- Counterexample for C7 as stated: two fixes 250 minutes apart at a
60-minute expected interval give the dashboard rate min(100, 2/⌊250/60⌋·100)
= 50, while the claim's exact formula gives min(100, 2/(250/60)·100) =
48. -/
theorem c7_counterexample :
    (calculate_quality_metrics [⟨0, 0, 0⟩, ⟨15000, 0, 0⟩] 60).summary.fix_success_rate
      = 50 ∧
    spec_fix_success_rate [⟨0, 0, 0⟩, ⟨15000, 0, 0⟩] 60 = 48 ∧
    (calculate_quality_metrics [⟨0, 0, 0⟩, ⟨15000, 0, 0⟩] 60).summary.fix_success_rate
      ≠ spec_fix_success_rate [⟨0, 0, 0⟩, ⟨15000, 0, 0⟩] 60 := by
  refine ⟨by with_unfolding_all rfl, by with_unfolding_all rfl,
    of_decide_eq_true (by with_unfolding_all rfl)⟩

/-- The span of the sorted track in whole days, `(end_date -
start_date).days` of `calculate_quality_metrics` (src/app.py lines
2734/2740). -/
def quality_span_days (df : List Fix) : ℤ :=
  Int.floor ((((List.insertionSort fixLE df).map Fix.t).getLastD 0 -
    ((List.insertionSort fixLE df).map Fix.t).headD 0) / 86400)

/-- C8 (amended): the weekly histogram appears exactly when the track
spans at least 7 whole days and then lists all 7 weekday names (reindex
with fillna 0); the hourly histogram appears exactly when the track spans
at least 30 whole days, but — against the claim — it only contains the
hours that actually occur in the data (no reindex over 0-23; see the
counterexample). -/
theorem c8_temporal_patterns (df : List Fix) (E : ℚ) :
    ((calculate_quality_metrics df E).temporal_patterns.weekly.isSome = true ↔
      7 ≤ quality_span_days df) ∧
    (∀ w, (calculate_quality_metrics df E).temporal_patterns.weekly = some w →
      w.map Prod.fst = day_names) ∧
    ((calculate_quality_metrics df E).temporal_patterns.hourly.isSome = true ↔
      30 ≤ quality_span_days df) ∧
    (∀ hl, (calculate_quality_metrics df E).temporal_patterns.hourly = some hl →
      ∀ hh : ℕ, (∃ pr ∈ hl, pr.1 = hh) ↔ ∃ f ∈ df, hour_of_day f.t = hh) := by
  have hw : (calculate_quality_metrics df E).temporal_patterns.weekly =
      (if 7 ≤ quality_span_days df then
        some (day_names.map (fun nm =>
          (nm, (((List.insertionSort fixLE df).map Fix.t).filter
            (fun t => decide (day_name t = nm))).length)))
      else none) := rfl
  have hh : (calculate_quality_metrics df E).temporal_patterns.hourly =
      (if 30 ≤ quality_span_days df then
        some ((List.insertionSort (· ≤ ·)
            (((List.insertionSort fixLE df).map Fix.t).map hour_of_day).dedup).map
          (fun h => (h, (((List.insertionSort fixLE df).map Fix.t).filter
            (fun t => decide (hour_of_day t = h))).length)))
      else none) := rfl
  refine ⟨?_, ?_, ?_, ?_⟩
  · rw [hw]
    by_cases h7 : 7 ≤ quality_span_days df <;> simp [h7]
  · intro w hweq
    rw [hw] at hweq
    by_cases h7 : 7 ≤ quality_span_days df
    · rw [if_pos h7] at hweq
      rw [← Option.some.inj hweq, List.map_map]
      simp [Function.comp_def]
    · rw [if_neg h7] at hweq
      exact absurd hweq (by simp)
  · rw [hh]
    by_cases h30 : 30 ≤ quality_span_days df <;> simp [h30]
  · intro hl hleq hhour
    rw [hh] at hleq
    by_cases h30 : 30 ≤ quality_span_days df
    · rw [if_pos h30] at hleq
      rw [← Option.some.inj hleq]
      constructor
      · rintro ⟨pr, hpr, hfst⟩
        obtain ⟨h, hmem, hpr'⟩ := List.mem_map.mp hpr
        have hkey : h = hhour := by rw [← hfst, ← hpr']
        rw [List.mem_insertionSort, List.mem_dedup] at hmem
        obtain ⟨t, htmem, hth⟩ := List.mem_map.mp hmem
        obtain ⟨f, hfmem, hft⟩ := List.mem_map.mp htmem
        refine ⟨f, (List.perm_insertionSort fixLE df).mem_iff.mp hfmem, ?_⟩
        rw [hft, hth, hkey]
      · rintro ⟨f, hfmem, hfh⟩
        refine ⟨(hhour, (((List.insertionSort fixLE df).map Fix.t).filter
          (fun t => decide (hour_of_day t = hhour))).length), ?_, rfl⟩
        apply List.mem_map_of_mem
        rw [List.mem_insertionSort, List.mem_dedup, ← hfh]
        apply List.mem_map_of_mem
        apply List.mem_map_of_mem
        exact (List.perm_insertionSort fixLE df).mem_iff.mpr hfmem
    · rw [if_neg h30] at hleq
      exact absurd hleq (by simp)

/-- Witness for C8: a track of two fixes 30 days apart produces both
histograms, the weekly one listing all 7 weekday names and the hourly one
holding only the single occurring hour. -/
theorem c8_witness :
    ((calculate_quality_metrics
      [⟨0, 0, 0⟩, ⟨2592000, 0, 0⟩] 60).temporal_patterns.weekly.isSome = true) ∧
    ((calculate_quality_metrics
      [⟨0, 0, 0⟩, ⟨2592000, 0, 0⟩] 60).temporal_patterns.hourly.isSome = true) :=
  ⟨((c8_temporal_patterns [⟨0, 0, 0⟩, ⟨2592000, 0, 0⟩] 60).1).mpr
      (by with_unfolding_all decide),
   ((c8_temporal_patterns [⟨0, 0, 0⟩, ⟨2592000, 0, 0⟩] 60).2.2.1).mpr
      (by with_unfolding_all decide)⟩

/-- Counterexample for C8 as stated: all fixes of a 30-day track fall in
hour 0, and the produced hourly histogram contains only hour 0 — no count
for hour 1 (or any other hour). -/
theorem c8_counterexample :
    (calculate_quality_metrics
      [⟨0, 0, 0⟩, ⟨2592000, 0, 0⟩] 60).temporal_patterns.hourly = some [(0, 2)] ∧
    ((calculate_quality_metrics
      [⟨0, 0, 0⟩, ⟨2592000, 0, 0⟩] 60).temporal_patterns.hourly.bind
        (fun hl => hl.lookup 1)) = none := by
  constructor <;> with_unfolding_all rfl

/-- C9 (amended): the claim holds for tracks of at least two fixes — the
preprocessor output is timestamp-sorted, a permutation of the input, and
its distance column starts with 0 and has one entry per fix; a shorter
track is returned unchanged WITHOUT the distance column (see the
counterexample), so its first fix has no step distance at all. -/
theorem c9_track_preprocessor (hav : ℚ → ℚ → ℚ → ℚ → ℚ) (df : List Fix)
    (h2 : 2 ≤ df.length) :
    (calculate_distances hav df).1.Sorted fixLE ∧
    (calculate_distances hav df).1.Perm df ∧
    ∃ ds : List ℚ, (calculate_distances hav df).2 = some ds ∧
      ds.headD 1 = 0 ∧ ds.length = df.length := by
  have hnot : ¬(df.length < 2) := by omega
  unfold calculate_distances
  rw [if_neg hnot]
  refine ⟨List.sorted_insertionSort fixLE df, List.perm_insertionSort fixLE df,
    ⟨_, rfl, rfl, ?_⟩⟩
  simp only [List.length_cons, List.length_map, List.length_zip,
    List.length_tail, List.length_insertionSort]
  omega

/-- Witness for C9: an unsorted two-fix track is sorted and annotated with
distances [0, 2]. -/
theorem c9_witness :
    (calculate_distances l1Dist [⟨3600, 1, 1⟩, ⟨0, 0, 0⟩]).1.Sorted fixLE ∧
    calculate_distances l1Dist [⟨3600, 1, 1⟩, ⟨0, 0, 0⟩] =
      ([⟨0, 0, 0⟩, ⟨3600, 1, 1⟩], some [0, 2]) :=
  ⟨(c9_track_preprocessor l1Dist [⟨3600, 1, 1⟩, ⟨0, 0, 0⟩] (by decide)).1,
   by with_unfolding_all rfl⟩

/-- Counterexample for C9 as stated: a single-fix track is returned with no
distance column, so its first fix's step distance is not 0 — it does not
exist. -/
theorem c9_counterexample :
    (calculate_distances l1Dist [⟨0, 0, 0⟩]).2 = none ∧
    ¬((calculate_distances l1Dist [⟨0, 0, 0⟩]).2.bind
        (fun l => l.head?) = some 0) := by
  constructor
  · with_unfolding_all rfl
  · with_unfolding_all decide

end Wildlife
